import Mathlib

/-!
# DebuggerConsoleController (mGBA Qt front end)

A shallow embedding of `src/platform/qt/DebuggerConsoleController.cpp`: the line queue that
hands text typed in the console over to the CLI debugger, the history list, and the
history file `cli_history.log`.

Every member function becomes a function on an explicit controller state.  Values the
function reads from its collaborators (the engine's `state` field, the calling thread, whether
a file can be opened) are arguments.  Calls into collaborators and the locking primitives are
recorded, in program order, in a trace.

Qt's `QString` is modelled as a null flag plus a list of Unicode scalar values, and its UTF-8
codec as UTF-8 in shortest form; the decoder skips one byte order mark at the front of its
input, as Qt's does.  A `QByteArray` and the memory behind a `const char*` are lists of bytes.
-/

namespace QGBA

/-! ## Data model -/

/-- Bytes of a `QByteArray` or of the memory a `const char*` points to, one `Nat` per byte. -/
abbrev QByteArray := List Nat

/-- A `QString`: either the null string `QString()` or a string with contents, which may be
empty.  The contents are Unicode scalar values. -/
inductive QString where
  | null : QString
  | str (chars : List Char) : QString
  deriving DecidableEq

/-- The member `QString::isNull`. -/
def QString.isNull : QString → Bool
  | .null => true
  | .str _ => false

/-- Characters held by a string; the null string holds none. -/
def QString.chars : QString → List Char
  | .null => []
  | .str cs => cs

/-- UTF-8 encoding of one Unicode scalar value. -/
def utf8EncodeChar (c : Char) : QByteArray :=
  let n := c.toNat
  if n < 0x80 then [n]
  else if n < 0x800 then [0xC0 + n / 0x40, 0x80 + n % 0x40]
  else if n < 0x10000 then [0xE0 + n / 0x1000, 0x80 + n / 0x40 % 0x40, 0x80 + n % 0x40]
  else [0xF0 + n / 0x40000, 0x80 + n / 0x1000 % 0x40, 0x80 + n / 0x40 % 0x40, 0x80 + n % 0x40]

/-- The member `QString::toUtf8` (Qt library): the UTF-8 bytes of the contents. -/
def QString.toUtf8 (s : QString) : QByteArray :=
  s.chars.flatMap utf8EncodeChar

/-- Continuation byte test `10xxxxxx`. -/
def isCont (b : Nat) : Bool :=
  decide (0x80 ≤ b) && decide (b < 0xC0)

/-- Decode the code point at the front of a byte string.  Returns the code point and the bytes
after it, or `none` when the front is not a well formed, shortest form UTF-8 sequence. -/
def utf8DecodeStep : QByteArray → Option (Nat × QByteArray)
  | [] => none
  | b0 :: rest =>
    if b0 < 0x80 then some (b0, rest)
    else if b0 < 0xC0 then none
    else if b0 < 0xE0 then
      match rest with
      | b1 :: rest1 =>
        let n := (b0 - 0xC0) * 0x40 + (b1 - 0x80)
        if isCont b1 && decide (0x80 ≤ n) then some (n, rest1) else none
      | _ => none
    else if b0 < 0xF0 then
      match rest with
      | b1 :: b2 :: rest2 =>
        let n := (b0 - 0xE0) * 0x1000 + (b1 - 0x80) * 0x40 + (b2 - 0x80)
        if isCont b1 && isCont b2 && decide (0x800 ≤ n) && !(decide (0xD800 ≤ n) && decide (n < 0xE000))
        then some (n, rest2) else none
      | _ => none
    else if b0 < 0xF8 then
      match rest with
      | b1 :: b2 :: b3 :: rest3 =>
        let n := (b0 - 0xF0) * 0x40000 + (b1 - 0x80) * 0x1000 + (b2 - 0x80) * 0x40 + (b3 - 0x80)
        if isCont b1 && isCont b2 && isCont b3 && decide (0x10000 ≤ n) && decide (n < 0x110000)
        then some (n, rest3) else none
      | _ => none
    else none

/-- Decoder loop of `QString::fromUtf8`: a malformed byte yields U+FFFD and decoding goes on
with the next byte.  The first argument bounds the number of characters produced. -/
def utf8DecodeAux : Nat → QByteArray → List Char
  | 0, _ => []
  | _ + 1, [] => []
  | fuel + 1, b0 :: rest =>
    match utf8DecodeStep (b0 :: rest) with
    | some (n, rest1) => Char.ofNat n :: utf8DecodeAux fuel rest1
    | none => Char.ofNat 0xFFFD :: utf8DecodeAux fuel rest

/-- Byte order mark handling of Qt's UTF-8 decoder: when the input starts with the three bytes
`EF BB BF` they are skipped, once. -/
def stripBom (bytes : QByteArray) : QByteArray :=
  if bytes.take 3 = [0xEF, 0xBB, 0xBF] then bytes.drop 3 else bytes

/-- The static `QString::fromUtf8(const QByteArray&)` (Qt library): a byte order mark at the
front is skipped and the rest is decoded.  Every byte string has at most as many characters as
bytes, so its length is enough fuel. -/
def QString.fromUtf8 (bytes : QByteArray) : QString :=
  .str (utf8DecodeAux (stripBom bytes).length (stripBom bytes))

/-- The static `QString::fromUtf8(const char*)`: the C string ends at the first NUL byte. -/
def QString.fromUtf8CStr (line : QByteArray) : QString :=
  QString.fromUtf8 (line.takeWhile (fun b => b != 0))

/-- Modelled from the spec: the engine state `m_cliDebugger.d.state`, whose enumeration is
declared in the debugger header.  The source names `DEBUGGER_RUNNING` and `DEBUGGER_SHUTDOWN`;
every other enumerator (such as the paused state) is `other`. -/
inductive mDebuggerState where
  | DEBUGGER_RUNNING : mDebuggerState
  | DEBUGGER_SHUTDOWN : mDebuggerState
  | other (tag : Nat) : mDebuggerState
  deriving DecidableEq

/-- Primitive actions of the member functions, in program order.  Acquiring an `Interrupter`
and touching `m_lines` record whether `m_mutex` was held by the caller at that moment. -/
inductive Event where
  | interrupt (mutexHeld : Bool) : Event
  | resume : Event
  | lock : Event
  | unlock : Event
  | linesAppend (mutexHeld : Bool) : Event
  | linesTakeFirst (mutexHeld : Bool) : Event
  | wakeOne : Event
  | wait : Event
  | mDebuggerEnter : Event
  | attachBackend : Event
  | attachSystem : Event
  | baseDetach : Event
  | warn : Event
  deriving DecidableEq

/-- State of a `DebuggerConsoleController`: its members, the thread that owns it, the lock
state of the running operation, the history file and the trace of actions so far. -/
structure DebuggerConsoleController where
  m_lines : List QString
  m_history : List QString
  m_last : QByteArray
  thread : Nat
  mutexHeld : Bool
  interrupters : Nat
  log : Option QByteArray
  trace : List Event

/-- A controller right after construction on thread `thread`, with history file `log`. -/
def DebuggerConsoleController.create (thread : Nat) (log : Option QByteArray) :
    DebuggerConsoleController :=
  { m_lines := [], m_history := [], m_last := [], thread := thread,
    mutexHeld := false, interrupters := 0, log := log, trace := [] }

/-! ## Primitives -/

/-- Record one action. -/
def emit (e : Event) (self : DebuggerConsoleController) : DebuggerConsoleController :=
  { self with trace := self.trace ++ [e] }

/-- Constructor of `CoreController::Interrupter`. -/
def interrupterAcquire (self : DebuggerConsoleController) : DebuggerConsoleController :=
  { self with interrupters := self.interrupters + 1,
              trace := self.trace ++ [Event.interrupt self.mutexHeld] }

/-- Destructor of `CoreController::Interrupter`. -/
def interrupterRelease (self : DebuggerConsoleController) : DebuggerConsoleController :=
  { self with interrupters := self.interrupters - 1, trace := self.trace ++ [Event.resume] }

/-- Constructor of `QMutexLocker` on `m_mutex`. -/
def mutexLock (self : DebuggerConsoleController) : DebuggerConsoleController :=
  { self with mutexHeld := true, trace := self.trace ++ [Event.lock] }

/-- Destructor of `QMutexLocker` on `m_mutex`. -/
def mutexUnlock (self : DebuggerConsoleController) : DebuggerConsoleController :=
  { self with mutexHeld := false, trace := self.trace ++ [Event.unlock] }

/-- The call `m_lines.append(line)`. -/
def linesAppend (line : QString) (self : DebuggerConsoleController) :
    DebuggerConsoleController :=
  { self with m_lines := self.m_lines ++ [line],
              trace := self.trace ++ [Event.linesAppend self.mutexHeld] }

/-- The call `m_cond.wait(&m_mutex)` entered with nothing to read: the mutex is released and
the caller is suspended. -/
def condWait (self : DebuggerConsoleController) : DebuggerConsoleController :=
  { self with mutexHeld := false, trace := self.trace ++ [Event.wait] }

/-- Modelled from the spec: `mDebuggerEnter(&m_cliDebugger.d, DEBUGGER_ENTER_MANUAL, nullptr)`
of the core debugger asks the engine to enter its command processing state.  The request is
recorded; the members of the controller are not touched. -/
def mDebuggerEnter (self : DebuggerConsoleController) : DebuggerConsoleController :=
  emit Event.mDebuggerEnter self

/-- Modelled from the spec: `CLIDebuggerAttachBackend` binds the backend of this controller to
the CLI debugger, replacing the binding that was there.  It is recorded. -/
def CLIDebuggerAttachBackend (self : DebuggerConsoleController) : DebuggerConsoleController :=
  emit Event.attachBackend self

/-- Modelled from the spec: `CLIDebuggerAttachSystem` hands the debug system of the running
core to the CLI debugger.  It is recorded. -/
def CLIDebuggerAttachSystem (self : DebuggerConsoleController) : DebuggerConsoleController :=
  emit Event.attachSystem self

/-- The call `m_cond.wakeOne()`. -/
def wakeOne (self : DebuggerConsoleController) : DebuggerConsoleController :=
  emit Event.wakeOne self

/-! ## Member functions -/

/-- `DebuggerConsoleController::enterLine`; `state` is `m_cliDebugger.d.state`. -/
def enterLine (state : mDebuggerState) (line : QString) (self : DebuggerConsoleController) :
    DebuggerConsoleController :=
  let self := interrupterAcquire self
  let self := mutexLock self
  let self := linesAppend line self
  let self := if state = mDebuggerState.DEBUGGER_RUNNING then mDebuggerEnter self else self
  let self := wakeOne self
  interrupterRelease (mutexUnlock self)

/-- Text mode write of `QFile`: with `crlf` every line feed is written as CR LF. -/
def textWrite (crlf : Bool) (bytes : QByteArray) : QByteArray :=
  if crlf then bytes.flatMap (fun b => if b = 10 then [13, 10] else [b]) else bytes

/-- `DebuggerConsoleController::historySave`; `canOpen` says whether the file opens for
writing, `crlf` is the line ending of the platform's text mode. -/
def historySave (canOpen crlf : Bool) (self : DebuggerConsoleController) :
    DebuggerConsoleController :=
  if !canOpen then emit Event.warn self
  else
    { self with log := some (self.m_history.foldl
        (fun file line => file ++ textWrite crlf line.toUtf8 ++ textWrite crlf [10]) []) }

/-- `DebuggerConsoleController::deinit`, the hook registered as `m_backend.d.deinit`;
`current` is `QThread::currentThread()` and `state` is `be->p->d.state`. -/
def deinit (current : Nat) (state : mDebuggerState) (self : DebuggerConsoleController) :
    DebuggerConsoleController :=
  if current = self.thread ∧ state ≠ mDebuggerState.DEBUGGER_SHUTDOWN then
    wakeOne (linesAppend QString.null self)
  else self

/-- Modelled from the spec: `DebuggerController::detach()` of the base class is the external
detach sequence.  It is recorded.  The private queue and history are out of its reach except
through the `deinit` hook handed to the engine in the constructor, which the engine may call
while it is torn down: `hook` is `none` when the hook is not called, and otherwise the thread
the sequence runs on and the engine state the hook then reads. -/
def baseDetach (hook : Option (Nat × mDebuggerState)) (self : DebuggerConsoleController) :
    DebuggerConsoleController :=
  let self := emit Event.baseDetach self
  match hook with
  | none => self
  | some (current, state) => deinit current state self

/-- `DebuggerConsoleController::detach`; `state` is `m_cliDebugger.d.state`, `hook` is passed
on to the external detach sequence, `canOpen` and `crlf` to `historySave`. -/
def detach (state : mDebuggerState) (hook : Option (Nat × mDebuggerState)) (canOpen crlf : Bool)
    (self : DebuggerConsoleController) : DebuggerConsoleController :=
  let self := interrupterAcquire self
  let self := mutexLock self
  let self :=
    if state ≠ mDebuggerState.DEBUGGER_SHUTDOWN then
      wakeOne (linesAppend QString.null self)
    else self
  let self := interrupterRelease (mutexUnlock self)
  let self := baseDetach hook self
  historySave canOpen crlf self

/-- `DebuggerConsoleController::attachInternal`. -/
def attachInternal (self : DebuggerConsoleController) : DebuggerConsoleController :=
  let self := interrupterAcquire self
  let self := mutexLock self
  let self := CLIDebuggerAttachBackend self
  let self := CLIDebuggerAttachSystem self
  interrupterRelease (mutexUnlock self)

/-- Outcome of a call of `readLine`: the caller is suspended in `m_cond.wait`, or the call
returned a pointer (`none` is `nullptr`) with `len` the value of `*len` after the call. -/
inductive ReadLine where
  | waiting (self : DebuggerConsoleController) : ReadLine
  | returned (result : Option QByteArray) (len : Nat) (self : DebuggerConsoleController) : ReadLine

/-- `DebuggerConsoleController::readLine`; `len` is the value of `*len` on entry.  Only this
call runs, so an empty queue leaves the caller suspended in the wait loop. -/
def readLine (len : Nat) (self : DebuggerConsoleController) : ReadLine :=
  let self := interrupterAcquire self
  let self := mutexLock self
  match self.m_lines with
  | [] => ReadLine.waiting (condWait self)
  | last :: rest =>
    let self := { self with m_lines := rest,
                            trace := self.trace ++ [Event.linesTakeFirst self.mutexHeld] }
    if last.isNull then
      ReadLine.returned none len (interrupterRelease (mutexUnlock self))
    else
      let self := { self with m_last := last.toUtf8 }
      ReadLine.returned (some self.m_last) self.m_last.length
        (interrupterRelease (mutexUnlock self))

/-- `DebuggerConsoleController::historyLast`; `len` is the value of `*len` on entry.  Returns
the pointer, the value of `*len` after the call and the new state. -/
def historyLast (len : Nat) (self : DebuggerConsoleController) :
    Option QByteArray × Nat × DebuggerConsoleController :=
  let self := interrupterAcquire self
  let self := mutexLock self
  if h : self.m_history = [] then
    (some [0x69], len, interrupterRelease (mutexUnlock self))
  else
    let self1 := { self with m_last := (self.m_history.getLast h).toUtf8 }
    (some self1.m_last, self1.m_last.length, interrupterRelease (mutexUnlock self1))

/-- `DebuggerConsoleController::historyAppend`; `line` is the C string passed in. -/
def historyAppend (line : QByteArray) (self : DebuggerConsoleController) :
    DebuggerConsoleController :=
  let self := interrupterAcquire self
  let self := mutexLock self
  let self := { self with m_history := self.m_history ++ [QString.fromUtf8CStr line] }
  interrupterRelease (mutexUnlock self)

/-- Raw `readLine` of a device: the bytes up to and including the first line feed, or all the
remaining bytes when there is none, and what is left of the device. -/
def readLineRaw : QByteArray → QByteArray × QByteArray
  | [] => ([], [])
  | b :: bs => if b = 10 then ([10], bs) else (b :: (readLineRaw bs).1, (readLineRaw bs).2)

/-- The member `QByteArray::endsWith`. -/
def endsWith (line suffix : QByteArray) : Bool :=
  line.drop (line.length - suffix.length) == suffix

/-- The member `QByteArray::chop`. -/
def chop (n : Nat) (line : QByteArray) : QByteArray :=
  line.take (line.length - n)

/-- `QFile::readLine` on a device opened in text mode: with `fold` a CR LF at the end of the
line read is handed over as a single line feed. -/
def fileReadLine (fold : Bool) (file : QByteArray) : QByteArray × QByteArray :=
  let r := readLineRaw file
  if fold && endsWith r.1 [13, 10] then (chop 2 r.1 ++ [10], r.2) else r

/-- The `while (true)` loop of `historyLoad`: `file` is what is left to read, `history` the
local list built so far.  Returns `none` when the fuel runs out before the loop breaks. -/
def historyLoadLoop (fold : Bool) : Nat → QByteArray → List QString → Option (List QString)
  | 0, _, _ => none
  | fuel + 1, file, history =>
    let r := fileReadLine fold file
    let line := r.1
    if line.isEmpty then some history
    else
      let line :=
        if endsWith line [13, 10] then chop 2 line
        else if endsWith line [10] then chop 1 line
        else line
      historyLoadLoop fold fuel r.2 (history ++ [QString.fromUtf8 line])

/-- `DebuggerConsoleController::historyLoad`.  A missing file (`log = none`) fails to open and
leaves the state as it is.  Each turn of the loop reads at least one byte, so the length of
the file plus one is enough fuel; `none` would mean the loop did not finish. -/
def historyLoad (fold : Bool) (self : DebuggerConsoleController) :
    Option DebuggerConsoleController :=
  match self.log with
  | none => some self
  | some file =>
    match historyLoadLoop fold (file.length + 1) file [] with
    | none => none
    | some history =>
      let self := mutexLock self
      let self := { self with m_history := history }
      some (mutexUnlock self)

/-! ## Drivers and observations used in the statements -/

/-- Submit lines one after the other; each submission sees its own engine state. -/
def enterLines : List (mDebuggerState × QString) → DebuggerConsoleController →
    DebuggerConsoleController
  | [], self => self
  | (state, line) :: more, self => enterLines more (enterLine state line self)

/-- Pointer returned by a call of `readLine`: `none` while the caller waits, `some none` for
`nullptr`, `some (some bytes)` for a pointer to `bytes`. -/
def ReadLine.result : ReadLine → Option (Option QByteArray)
  | ReadLine.waiting _ => none
  | ReadLine.returned result _ _ => some result

/-- Controller state a call of `readLine` leaves behind. -/
def ReadLine.controller : ReadLine → DebuggerConsoleController
  | ReadLine.waiting self => self
  | ReadLine.returned _ _ self => self

/-- Run `n` calls of `readLine` in a row and collect the pointers returned.  The result is
`none` as soon as one of the calls has to wait. -/
def readLines : Nat → Nat → DebuggerConsoleController →
    Option (List (Option QByteArray) × Nat × DebuggerConsoleController)
  | 0, len, self => some ([], len, self)
  | n + 1, len, self =>
    match readLine len self with
    | ReadLine.waiting _ => none
    | ReadLine.returned result len1 self1 =>
      match readLines n len1 self1 with
      | none => none
      | some (results, len2, self2) => some (result :: results, len2, self2)

/-- Number of `mDebuggerEnter` requests in a trace. -/
def enterRequests (trace : List Event) : Nat :=
  trace.count Event.mDebuggerEnter

/-- Lock discipline of one action: `m_lines` is touched only with `m_mutex` held, and an
`Interrupter` is never acquired inside the mutex. -/
def Event.disciplined : Event → Bool
  | Event.interrupt mutexHeld => !mutexHeld
  | Event.linesAppend mutexHeld => mutexHeld
  | Event.linesTakeFirst mutexHeld => mutexHeld
  | _ => true

/-- Lock discipline of a trace. -/
def lockDiscipline (trace : List Event) : Bool :=
  trace.all Event.disciplined

/-- Markers the `deinit` hook pushes when the external detach sequence of a controller owned
by thread `owner` is run with `hook`. -/
def hookMarkers (hook : Option (Nat × mDebuggerState)) (owner : Nat) : List QString :=
  match hook with
  | none => []
  | some (current, state) =>
    if current = owner ∧ state ≠ mDebuggerState.DEBUGGER_SHUTDOWN then [QString.null] else []

/-- Characters of a Lean string literal, for concrete examples. -/
def text (s : String) : List Char := s.toList

/-! ## The UTF-8 codec -/

/-- Code points of characters are Unicode scalar values. -/
theorem char_toNat_valid (c : Char) :
    c.toNat < 0xD800 ∨ (0xDFFF < c.toNat ∧ c.toNat < 0x110000) := by
  have h := c.valid
  simpa [UInt32.isValidChar, Nat.isValidChar, Char.toNat, UInt32.toNat] using h

/-- Every character is encoded by at least one byte. -/
theorem utf8EncodeChar_ne_nil (c : Char) : ∃ b r, utf8EncodeChar c = b :: r := by
  unfold utf8EncodeChar
  simp only []
  split_ifs <;> exact ⟨_, _, rfl⟩

/-- Decoding the front of an encoded character gives back its code point and consumes exactly
its bytes. -/
theorem utf8DecodeStep_encode (c : Char) (rest : QByteArray) :
    utf8DecodeStep (utf8EncodeChar c ++ rest) = some (c.toNat, rest) := by
  have hv := char_toNat_valid c
  unfold utf8EncodeChar
  simp only []
  split_ifs with h1 h2 h3
  · simp [utf8DecodeStep, h1]
  · have a1 : ¬ (0xC0 + c.toNat / 0x40 < 0x80) := by omega
    have a2 : ¬ (0xC0 + c.toNat / 0x40 < 0xC0) := by omega
    have a3 : (0xC0 + c.toNat / 0x40 < 0xE0) := by omega
    have a4 : 0x80 + c.toNat % 0x40 < 0xC0 := by omega
    simp [utf8DecodeStep, isCont, a1, a2, a3, a4]
    omega
  · have a1 : ¬ (0xE0 + c.toNat / 0x1000 < 0x80) := by omega
    have a2 : ¬ (0xE0 + c.toNat / 0x1000 < 0xC0) := by omega
    have a3 : ¬ (0xE0 + c.toNat / 0x1000 < 0xE0) := by omega
    have a4 : (0xE0 + c.toNat / 0x1000 < 0xF0) := by omega
    have a5 : 0x80 + c.toNat / 0x40 % 0x40 < 0xC0 := by omega
    have a6 : 0x80 + c.toNat % 0x40 < 0xC0 := by omega
    simp [utf8DecodeStep, isCont, a1, a2, a3, a4, a5, a6]
    omega
  · have a1 : ¬ (0xF0 + c.toNat / 0x40000 < 0x80) := by omega
    have a2 : ¬ (0xF0 + c.toNat / 0x40000 < 0xC0) := by omega
    have a3 : ¬ (0xF0 + c.toNat / 0x40000 < 0xE0) := by omega
    have a4 : ¬ (0xF0 + c.toNat / 0x40000 < 0xF0) := by omega
    have a5 : (0xF0 + c.toNat / 0x40000 < 0xF8) := by omega
    have a6 : 0x80 + c.toNat / 0x1000 % 0x40 < 0xC0 := by omega
    have a7 : 0x80 + c.toNat / 0x40 % 0x40 < 0xC0 := by omega
    have a8 : 0x80 + c.toNat % 0x40 < 0xC0 := by omega
    simp [utf8DecodeStep, isCont, a1, a2, a3, a4, a5, a6, a7, a8]
    omega

/-- The decoder loop inverts the encoder when it has one unit of fuel per character. -/
theorem utf8DecodeAux_encode (cs : List Char) :
    ∀ fuel, cs.length ≤ fuel → utf8DecodeAux fuel (cs.flatMap utf8EncodeChar) = cs := by
  induction cs with
  | nil => intro fuel _; cases fuel <;> simp [utf8DecodeAux]
  | cons c cs ih =>
    intro fuel hf
    cases fuel with
    | zero => simp at hf
    | succ f =>
      obtain ⟨b, r, hbr⟩ := utf8EncodeChar_ne_nil c
      have hs := utf8DecodeStep_encode c (cs.flatMap utf8EncodeChar)
      simp only [List.flatMap_cons]
      rw [hbr] at hs ⊢
      simp only [List.cons_append] at hs ⊢
      simp only [utf8DecodeAux, hs, Char.ofNat_toNat]
      rw [ih f (by simpa using hf)]

/-- An encoded text has at least as many bytes as characters. -/
theorem utf8Encode_length_ge (cs : List Char) :
    cs.length ≤ (cs.flatMap utf8EncodeChar).length := by
  induction cs with
  | nil => simp
  | cons c cs ih =>
    obtain ⟨b, r, hbr⟩ := utf8EncodeChar_ne_nil c
    simp only [List.flatMap_cons, List.length_append, List.length_cons, hbr]
    omega

/-- The UTF-8 bytes of a text that does not begin with U+FEFF do not begin with a byte order
mark, so the decoder skips nothing. -/
theorem stripBom_encode (t : List Char) (h : t.head? ≠ some (Char.ofNat 0xFEFF)) :
    stripBom (QString.toUtf8 (QString.str t)) = QString.toUtf8 (QString.str t) := by
  have hne : (QString.toUtf8 (QString.str t)).take 3 ≠ [0xEF, 0xBB, 0xBF] := by
    cases t with
    | nil => simp [QString.toUtf8, QString.chars]
    | cons c cs =>
      have hc : c.toNat ≠ 0xFEFF := by
        intro e
        apply h
        have : c = Char.ofNat 0xFEFF := by rw [← e, Char.ofNat_toNat]
        simp [this]
      simp only [QString.toUtf8, QString.chars, List.flatMap_cons]
      unfold utf8EncodeChar
      simp only []
      intro heq
      split_ifs at heq with h1 h2 h3
      · simp [List.take_succ_cons] at heq
        omega
      · simp [List.take_succ_cons] at heq
        omega
      · simp [List.take_succ_cons] at heq
        omega
      · simp [List.take_succ_cons] at heq
        omega
  simp [stripBom, hne]

/-- Decoding the UTF-8 bytes of a text that does not begin with U+FEFF gives the text back. -/
theorem fromUtf8_toUtf8 (cs : List Char) (h : cs.head? ≠ some (Char.ofNat 0xFEFF)) :
    QString.fromUtf8 (QString.toUtf8 (.str cs)) = .str cs := by
  simp only [QString.fromUtf8]
  rw [stripBom_encode cs h]
  simp only [QString.toUtf8, QString.chars]
  rw [utf8DecodeAux_encode cs _ (utf8Encode_length_ge cs)]

/-- An ASCII byte occurs in the encoding of a character only as that character itself. -/
theorem utf8EncodeChar_mem (c : Char) (b : Nat) (hb : b < 0x80) :
    b ∈ utf8EncodeChar c ↔ c.toNat = b := by
  unfold utf8EncodeChar
  simp only []
  split_ifs <;> simp <;> omega

/-- An ASCII byte that is not a character of the string is not among its UTF-8 bytes. -/
theorem toUtf8_not_mem (s : QString) (b : Nat) (hb : b < 0x80) (h : Char.ofNat b ∉ s.chars) :
    b ∉ s.toUtf8 := by
  simp only [QString.toUtf8, List.mem_flatMap]
  rintro ⟨c, hc, hm⟩
  rw [utf8EncodeChar_mem c b hb] at hm
  rw [← hm, Char.ofNat_toNat] at h
  exact h hc

/-- A C string without a NUL byte is read to its end. -/
theorem takeWhile_nonzero (bytes : QByteArray) (h : 0 ∉ bytes) :
    bytes.takeWhile (fun b => b != 0) = bytes := by
  rw [List.takeWhile_eq_self_iff]
  intro b hb
  have : b ≠ 0 := fun e => h (e ▸ hb)
  simpa using this

/-! ## Lines of the history file -/

/-- Reading a line stops right after the first line feed. -/
theorem readLineRaw_append (bytes rest : QByteArray) (h : 10 ∉ bytes) :
    readLineRaw (bytes ++ 10 :: rest) = (bytes ++ [10], rest) := by
  induction bytes with
  | nil => simp [readLineRaw]
  | cons b bs ih =>
    have hb : b ≠ 10 := fun e => h (by simp [e])
    have hbs : 10 ∉ bs := fun e => h (by simp [e])
    simp [readLineRaw, hb, ih hbs]

/-- A line read and what is left make up the device. -/
theorem readLineRaw_length (file : QByteArray) :
    (readLineRaw file).1.length + (readLineRaw file).2.length = file.length := by
  induction file with
  | nil => simp [readLineRaw]
  | cons b bs ih =>
    by_cases hb : b = 10
    · simp [readLineRaw, hb]; omega
    · simp [readLineRaw, hb]; omega

/-- Text without a line feed is written as it is. -/
theorem textWrite_of_not_mem (crlf : Bool) (bytes : QByteArray) (h : 10 ∉ bytes) :
    textWrite crlf bytes = bytes := by
  cases crlf
  · simp [textWrite]
  · simp only [textWrite, if_true]
    induction bytes with
    | nil => simp
    | cons b bs ih =>
      have hb : b ≠ 10 := fun e => h (by simp [e])
      have hbs : 10 ∉ bs := fun e => h (by simp [e])
      simp [List.flatMap_cons, hb, ih hbs]

/-- A byte string ends with what was appended to it. -/
theorem endsWith_append (bytes suffix : QByteArray) :
    endsWith (bytes ++ suffix) suffix = true := by
  simp [endsWith]

/-- Chopping what was appended gives the original bytes. -/
theorem chop_append (bytes suffix : QByteArray) :
    chop suffix.length (bytes ++ suffix) = bytes := by
  simp [chop]

/-- A line whose text holds no carriage return does not end with CR LF. -/
theorem endsWith_crlf_false (bytes : QByteArray) (h : 13 ∉ bytes) :
    endsWith (bytes ++ [10]) [13, 10] = false := by
  rcases List.eq_nil_or_concat bytes with rfl | ⟨init, x, rfl⟩
  · simp [endsWith]
  · have hx : x ≠ 13 := fun e => h (by simp [e])
    simp [endsWith, hx]

/-- The loop of `historySave` writes the entries one after the other. -/
theorem historySave_foldl (crlf : Bool) (history : List QString) (file : QByteArray) :
    history.foldl (fun file line => file ++ textWrite crlf line.toUtf8 ++ textWrite crlf [10]) file
      = file ++ history.flatMap (fun line => textWrite crlf line.toUtf8 ++ textWrite crlf [10]) := by
  induction history generalizing file with
  | nil => simp
  | cons e es ih =>
    rw [List.foldl_cons, ih]
    simp [List.flatMap_cons, List.append_assoc]

/-- Reading one saved entry: the line read is not empty, the rest of the file is what follows
the entry, and stripping the terminator as `historyLoad` does leaves the bytes of the entry. -/
theorem fileReadLine_entry (fold crlf : Bool) (bytes rest : QByteArray)
    (h10 : 10 ∉ bytes) (h13 : 13 ∉ bytes) :
    ∃ line, fileReadLine fold (bytes ++ textWrite crlf [10] ++ rest) = (line, rest) ∧
      line.isEmpty = false ∧
      (if endsWith line [13, 10] then chop 2 line
        else if endsWith line [10] then chop 1 line else line) = bytes := by
  have e1 : endsWith (bytes ++ [10]) [13, 10] = false := endsWith_crlf_false bytes h13
  have e2 : endsWith (bytes ++ [10]) [10] = true := endsWith_append bytes [10]
  have e3 : endsWith (bytes ++ [13, 10]) [13, 10] = true := endsWith_append bytes [13, 10]
  have c1 : chop 1 (bytes ++ [10]) = bytes := chop_append bytes [10]
  have c2 : chop 2 (bytes ++ [13, 10]) = bytes := chop_append bytes [13, 10]
  cases crlf
  · have hr : readLineRaw (bytes ++ 10 :: rest) = (bytes ++ [10], rest) :=
      readLineRaw_append bytes rest h10
    refine ⟨bytes ++ [10], ?_, by simp, by simp [e1, e2, c1]⟩
    simp [fileReadLine, textWrite, hr, e1]
  · have h10b : 10 ∉ bytes ++ [13] := by simp [h10]
    have hr : readLineRaw ((bytes ++ [13]) ++ 10 :: rest) = ((bytes ++ [13]) ++ [10], rest) :=
      readLineRaw_append (bytes ++ [13]) rest h10b
    simp only [List.append_assoc, List.singleton_append] at hr
    cases fold
    · refine ⟨bytes ++ [13, 10], ?_, by simp, by simp [e3, c2]⟩
      simp [fileReadLine, textWrite, hr]
    · refine ⟨bytes ++ [10], ?_, by simp, by simp [e1, e2, c1]⟩
      simp [fileReadLine, textWrite, hr, e3, c2]

/-- The loop of `historyLoad` on a saved history whose entries hold no line feed, no carriage
return and no U+FEFF in front returns the saved entries, given one unit of fuel more than
there are entries. -/
theorem historyLoadLoop_saved (fold crlf : Bool) (entries : List QString)
    (hline : ∀ e ∈ entries, Char.ofNat 10 ∉ e.chars ∧ Char.ofNat 13 ∉ e.chars ∧
      e.chars.head? ≠ some (Char.ofNat 0xFEFF)) :
    ∀ (fuel : Nat) (history : List QString), entries.length < fuel →
      historyLoadLoop fold fuel
        (entries.flatMap (fun line => textWrite crlf line.toUtf8 ++ textWrite crlf [10])) history
        = some (history ++ entries.map (fun e => QString.str e.chars)) := by
  induction entries with
  | nil =>
    intro fuel history hf
    cases fuel with
    | zero => simp at hf
    | succ f => simp [historyLoadLoop, fileReadLine, readLineRaw, endsWith]
  | cons e es ih =>
    intro fuel history hf
    cases fuel with
    | zero => simp at hf
    | succ f =>
      have h10 : 10 ∉ e.toUtf8 := toUtf8_not_mem e 10 (by omega) (hline e (by simp)).1
      have h13 : 13 ∉ e.toUtf8 := toUtf8_not_mem e 13 (by omega) (hline e (by simp)).2.1
      obtain ⟨line, hread, hne, hproc⟩ := fileReadLine_entry fold crlf e.toUtf8
        (es.flatMap (fun line => textWrite crlf line.toUtf8 ++ textWrite crlf [10])) h10 h13
      have hdec : QString.fromUtf8 e.toUtf8 = QString.str e.chars := by
        have := fromUtf8_toUtf8 e.chars (hline e (by simp)).2.2
        simpa [QString.toUtf8, QString.chars] using this
      simp only [List.flatMap_cons, textWrite_of_not_mem crlf _ h10]
      simp only [historyLoadLoop, hread, hne, hproc, hdec]
      rw [ih (fun x hx => hline x (by simp [hx])) f _ (by simpa using hf)]
      simp

/-- The loop of `historyLoad` breaks on every file within the length of the file plus one
turns. -/
theorem historyLoadLoop_total (fold : Bool) :
    ∀ (fuel : Nat) (file : QByteArray) (history : List QString), file.length < fuel →
      (historyLoadLoop fold fuel file history).isSome = true := by
  intro fuel
  induction fuel with
  | zero => intro file history hf; simp at hf
  | succ f ih =>
    intro file history hf
    simp only [historyLoadLoop]
    by_cases hempty : (fileReadLine fold file).1.isEmpty = true
    · rw [if_pos hempty]; rfl
    · rw [if_neg hempty]
      apply ih
      have hlen := readLineRaw_length file
      have hsnd : (fileReadLine fold file).2 = (readLineRaw file).2 := by
        simp only [fileReadLine]; split_ifs <;> rfl
      have hne : (readLineRaw file).1 ≠ [] := by
        intro h0
        apply hempty
        simp [fileReadLine, h0, endsWith]
      have hpos : 0 < (readLineRaw file).1.length := List.length_pos.mpr hne
      rw [hsnd]; omega

/-- `historyLoad` returns on every controller state and every file. -/
theorem historyLoad_total (fold : Bool) (self : DebuggerConsoleController) :
    (historyLoad fold self).isSome = true := by
  unfold historyLoad
  cases hlog : self.log with
  | none => rfl
  | some file =>
    have h := historyLoadLoop_total fold (file.length + 1) file [] (Nat.lt_succ_self _)
    cases hl : historyLoadLoop fold (file.length + 1) file [] with
    | none => simp [hl] at h
    | some history => simp [hl]

/-- A saved history has at least one byte per entry. -/
theorem saved_length_ge (crlf : Bool) (entries : List QString) :
    entries.length ≤
      (entries.flatMap (fun line => textWrite crlf line.toUtf8 ++ textWrite crlf [10])).length := by
  induction entries with
  | nil => simp
  | cons e es ih =>
    have h1 : 0 < (textWrite crlf [10]).length := by cases crlf <;> simp [textWrite]
    simp only [List.flatMap_cons, List.length_append, List.length_cons]
    omega

/-- Contents of the file after a successful `historySave`. -/
theorem historySave_log (crlf : Bool) (self : DebuggerConsoleController) :
    (historySave true crlf self).log
      = some (self.m_history.flatMap
          (fun line => textWrite crlf line.toUtf8 ++ textWrite crlf [10])) := by
  simp only [historySave, Bool.not_true, Bool.false_eq_true, if_false, historySave_foldl,
    List.nil_append]

/-- A string that is not null is determined by its characters. -/
theorem str_chars_of_not_null (entries : List QString) (h : ∀ e ∈ entries, e.isNull = false) :
    entries.map (fun e => QString.str e.chars) = entries := by
  induction entries with
  | nil => rfl
  | cons e es ih =>
    have he : QString.str e.chars = e := by
      have hn := h e (by simp)
      cases e with
      | null => simp [QString.isNull] at hn
      | str cs => rfl
    rw [List.map_cons, he, ih (fun x hx => h x (by simp [hx]))]

/-! ## The line queue -/

/-- `enterLine` puts the line at the tail of the queue, whatever the engine state. -/
theorem enterLine_lines (state : mDebuggerState) (line : QString)
    (self : DebuggerConsoleController) :
    (enterLine state line self).m_lines = self.m_lines ++ [line] := by
  simp only [enterLine, interrupterAcquire, mutexLock, linesAppend, mDebuggerEnter, wakeOne, emit,
    mutexUnlock, interrupterRelease]
  split_ifs <;> rfl

/-- Submitting several lines appends them in the order of submission. -/
theorem enterLines_lines (submissions : List (mDebuggerState × QString)) :
    ∀ self : DebuggerConsoleController,
      (enterLines submissions self).m_lines = self.m_lines ++ submissions.map Prod.snd := by
  induction submissions with
  | nil => intro self; simp [enterLines]
  | cons p more ih =>
    intro self
    obtain ⟨state, line⟩ := p
    simp [enterLines, ih, enterLine_lines]

/-- On a queue that is not empty `readLine` returns without waiting: it removes the head and
returns `nullptr` for a null string, the UTF-8 bytes and their number otherwise. -/
theorem readLine_cons (len : Nat) (self : DebuggerConsoleController) (line : QString)
    (rest : List QString) (h : self.m_lines = line :: rest) :
    ∃ self1, readLine len self
        = ReadLine.returned (if line.isNull then none else some line.toUtf8)
            (if line.isNull then len else line.toUtf8.length) self1 ∧
      self1.m_lines = rest ∧ self1.m_history = self.m_history ∧ self1.log = self.log ∧
      self1.thread = self.thread := by
  unfold readLine
  simp only [interrupterAcquire, mutexLock, h]
  by_cases hn : line.isNull = true
  · simp only [hn, if_true]
    exact ⟨_, rfl, rfl, rfl, rfl, rfl⟩
  · simp only [hn]
    exact ⟨_, rfl, rfl, rfl, rfl, rfl⟩

/-- As many calls of `readLine` as the queue has entries in front return those entries in
order, none of them waiting, and leave the rest of the queue. -/
theorem readLines_queue (queue : List QString) :
    ∀ (len : Nat) (self : DebuggerConsoleController) (rest : List QString),
      self.m_lines = queue ++ rest →
      ∃ len1 self1, readLines queue.length len self
          = some (queue.map (fun l => if l.isNull then none else some l.toUtf8), len1, self1) ∧
        self1.m_lines = rest ∧ self1.m_history = self.m_history ∧ self1.log = self.log ∧
        self1.thread = self.thread := by
  induction queue with
  | nil => intro len self rest h; exact ⟨len, self, rfl, by simpa using h, rfl, rfl, rfl⟩
  | cons l ls ih =>
    intro len self rest h
    obtain ⟨self1, hread, hl, hh, hlog, hth⟩ :=
      readLine_cons len self l (ls ++ rest) (by simpa using h)
    obtain ⟨len2, self2, hreads, hl2, hh2, hlog2, hth2⟩ :=
      ih (if l.isNull then len else l.toUtf8.length) self1 rest hl
    refine ⟨len2, self2, ?_, hl2, hh2.trans hh, hlog2.trans hlog, hth2.trans hth⟩
    simp only [List.length_cons, readLines, hread, hreads, List.map_cons]

/-- Queue left by the external detach sequence: the markers of the `deinit` hook are added. -/
theorem baseDetach_lines (hook : Option (Nat × mDebuggerState))
    (self : DebuggerConsoleController) :
    (baseDetach hook self).m_lines = self.m_lines ++ hookMarkers hook self.thread := by
  cases hook with
  | none => simp [baseDetach, hookMarkers, emit]
  | some p =>
    obtain ⟨current, state⟩ := p
    simp only [baseDetach, hookMarkers, deinit, emit, wakeOne, linesAppend]
    split_ifs <;> simp

/-- Queue left by `detach`: one null string more, unless the engine is shut down, followed by
the markers of the `deinit` hook. -/
theorem detach_lines (state : mDebuggerState) (hook : Option (Nat × mDebuggerState))
    (canOpen crlf : Bool) (self : DebuggerConsoleController) :
    (detach state hook canOpen crlf self).m_lines
      = self.m_lines ++
          (if state = mDebuggerState.DEBUGGER_SHUTDOWN then [] else [QString.null]) ++
          hookMarkers hook self.thread := by
  have hsave : ∀ c : DebuggerConsoleController,
      (historySave canOpen crlf c).m_lines = c.m_lines := by
    intro c; cases canOpen <;> simp [historySave, emit]
  simp only [detach, hsave, baseDetach_lines]
  simp only [interrupterAcquire, mutexLock, linesAppend, wakeOne, emit, mutexUnlock,
    interrupterRelease]
  by_cases hs : state = mDebuggerState.DEBUGGER_SHUTDOWN <;> simp [hs]

/-- `attachInternal` does not touch the queue. -/
theorem attachInternal_lines (self : DebuggerConsoleController) :
    (attachInternal self).m_lines = self.m_lines := rfl

/-- `historyAppend` adds the decoded C string at the end of the history. -/
theorem historyAppend_history (line : QByteArray) (self : DebuggerConsoleController) :
    (historyAppend line self).m_history = self.m_history ++ [QString.fromUtf8CStr line] := rfl

/-- Pointer returned by `historyLast`: the literal `"i"` on an empty history, the UTF-8 bytes
of the last entry otherwise. -/
theorem historyLast_result (len : Nat) (self : DebuggerConsoleController) :
    (historyLast len self).1
      = match self.m_history.getLast? with
        | none => some [0x69]
        | some entry => some entry.toUtf8 := by
  unfold historyLast
  simp only [interrupterAcquire, mutexLock]
  by_cases h : self.m_history = []
  · simp [h]
  · simp only [h, dite_false]
    rw [List.getLast?_eq_getLast _ h]

/-- Whenever `readLine` returns a text, and whenever `historyLast` returns an entry of a
history that is not empty, `*len` is the number of bytes returned. -/
theorem returned_text_length (len : Nat) (self : DebuggerConsoleController) :
    (∀ bytes len1 self1, readLine len self = ReadLine.returned (some bytes) len1 self1 →
      len1 = bytes.length) ∧
    (self.m_history ≠ [] → ∀ bytes, (historyLast len self).1 = some bytes →
      (historyLast len self).2.1 = bytes.length) := by
  constructor
  · intro bytes len1 self1 h
    unfold readLine at h
    simp only [interrupterAcquire, mutexLock] at h
    cases hq : self.m_lines with
    | nil => simp [hq] at h
    | cons l ls =>
      by_cases hn : l.isNull = true
      · simp [hq, hn] at h
      · simp [hq, hn] at h
        obtain ⟨h1, h2, -⟩ := h
        rw [← h1, ← h2]
  · intro hne bytes h
    unfold historyLast at h ⊢
    simp only [interrupterAcquire, mutexLock, hne, dite_false] at h ⊢
    simp at h
    rw [← h]

/-! ## Lock discipline -/

/-- Lock discipline of a trace made of two parts. -/
theorem lockDiscipline_append (t1 t2 : List Event) :
    lockDiscipline (t1 ++ t2) = (lockDiscipline t1 && lockDiscipline t2) := by
  simp [lockDiscipline, List.all_append]

/-- Started with the mutex free, `enterLine`, `detach` (its own code, the hook not being
called), `readLine`, `attachInternal` and `historyAppend` touch the queue only inside the mutex
and take the `Interrupter` before it. -/
theorem locked_operations_disciplined (state : mDebuggerState) (line : QString)
    (bytes : QByteArray) (canOpen crlf : Bool) (len : Nat) (self : DebuggerConsoleController)
    (hfree : self.mutexHeld = false) (hpast : lockDiscipline self.trace = true) :
    lockDiscipline (enterLine state line self).trace = true ∧
    lockDiscipline (detach state none canOpen crlf self).trace = true ∧
    lockDiscipline (readLine len self).controller.trace = true ∧
    lockDiscipline (attachInternal self).trace = true ∧
    lockDiscipline (historyAppend bytes self).trace = true := by
  refine ⟨?_, ?_, ?_, ?_, ?_⟩
  · simp only [enterLine, interrupterAcquire, mutexLock, linesAppend, mDebuggerEnter, wakeOne,
      emit, mutexUnlock, interrupterRelease]
    by_cases hs : state = mDebuggerState.DEBUGGER_RUNNING <;>
      (simp only [hs, hfree, if_true, if_false, List.append_assoc, List.singleton_append]
       rw [lockDiscipline_append, hpast]; rfl)
  · simp only [detach, historySave, baseDetach, interrupterAcquire, mutexLock, linesAppend,
      wakeOne, emit, mutexUnlock, interrupterRelease]
    by_cases hs : state = mDebuggerState.DEBUGGER_SHUTDOWN <;> cases canOpen <;>
      (simp only [hs, hfree, ne_eq, not_true_eq_false, not_false_eq_true, if_true, if_false,
        Bool.not_true, Bool.not_false, Bool.false_eq_true, List.append_assoc,
        List.singleton_append]
       rw [lockDiscipline_append, hpast]; rfl)
  · unfold readLine
    simp only [interrupterAcquire, mutexLock]
    cases hq : self.m_lines with
    | nil =>
      simp only [ReadLine.controller, condWait, hfree, List.append_assoc, List.singleton_append]
      rw [lockDiscipline_append, hpast]; rfl
    | cons l ls =>
      by_cases hn : l.isNull = true <;>
        (simp only [hn, ReadLine.controller, mutexUnlock, interrupterRelease, hfree, if_true,
          if_false, Bool.false_eq_true, List.append_assoc, List.singleton_append]
         rw [lockDiscipline_append, hpast]; rfl)
  · simp only [attachInternal, CLIDebuggerAttachBackend, CLIDebuggerAttachSystem,
      interrupterAcquire, mutexLock, emit, mutexUnlock, interrupterRelease, hfree,
      List.append_assoc, List.singleton_append]
    rw [lockDiscipline_append, hpast]; rfl
  · simp only [historyAppend, interrupterAcquire, mutexLock, mutexUnlock, interrupterRelease,
      hfree, List.append_assoc, List.singleton_append]
    rw [lockDiscipline_append, hpast]; rfl

/-! ## Properties of the controller -/

/-- Claim C1: text lines passed to `enterLine` in some order on an empty queue are returned by
as many calls of `readLine` in that same order, each as its UTF-8 bytes; no call has to wait
and the queue is empty afterwards. -/
theorem submitted_lines_read_in_order (submissions : List (mDebuggerState × List Char))
    (len : Nat) (self : DebuggerConsoleController) (hempty : self.m_lines = []) :
    ∃ len1 self1,
      readLines submissions.length len
          (enterLines (submissions.map (fun p => (p.1, QString.str p.2))) self)
        = some (submissions.map (fun p => some (QString.toUtf8 (QString.str p.2))), len1, self1) ∧
      self1.m_lines = [] := by
  have hq : (enterLines (submissions.map (fun p => (p.1, QString.str p.2))) self).m_lines
      = submissions.map (fun p => QString.str p.2) ++ [] := by
    rw [enterLines_lines, hempty]; simp [List.map_map, Function.comp_def]
  obtain ⟨len1, self1, hreads, hl, -⟩ := readLines_queue _ len _ [] hq
  refine ⟨len1, self1, ?_, hl⟩
  simpa [List.map_map, Function.comp_def, QString.isNull] using hreads

/-- Two lines, the second one empty, submitted to a fresh controller and read back. -/
theorem submitted_lines_read_in_order_witness :
    (DebuggerConsoleController.create 0 none).m_lines = [] ∧
    ∃ len1 self1,
      readLines 2 0
          (enterLines [(mDebuggerState.DEBUGGER_RUNNING, QString.str (text "step")),
            (mDebuggerState.other 0, QString.str [])] (DebuggerConsoleController.create 0 none))
        = some ([some [115, 116, 101, 112], some []], len1, self1) ∧
      self1.m_lines = [] :=
  ⟨rfl, submitted_lines_read_in_order
    [(mDebuggerState.DEBUGGER_RUNNING, text "step"), (mDebuggerState.other 0, [])] 0
    (DebuggerConsoleController.create 0 none) rfl⟩

/-- Claim C2, amended: in every engine state other than shutdown `detach` appends a
termination marker at the tail of the queue from its own guarded block, and the external
detach sequence adds one more when it runs the `deinit` hook on the owning thread with the
engine still not shut down.  The next calls of `readLine`, one more than the queue had
entries, all return without waiting, give the entries of the queue in their order and end
with `nullptr`; what stays queued is the marker of the hook, if any. -/
theorem detach_releases_reader (state : mDebuggerState) (hook : Option (Nat × mDebuggerState))
    (canOpen crlf : Bool) (len : Nat) (self : DebuggerConsoleController)
    (hstate : state ≠ mDebuggerState.DEBUGGER_SHUTDOWN) :
    (detach state hook canOpen crlf self).m_lines
      = self.m_lines ++ [QString.null] ++ hookMarkers hook self.thread ∧
    ∃ len1 self1,
      readLines (self.m_lines.length + 1) len (detach state hook canOpen crlf self)
        = some (self.m_lines.map (fun l => if l.isNull then none else some l.toUtf8) ++ [none],
            len1, self1) ∧
      self1.m_lines = hookMarkers hook self.thread := by
  have hq : (detach state hook canOpen crlf self).m_lines
      = self.m_lines ++ [QString.null] ++ hookMarkers hook self.thread := by
    rw [detach_lines]; simp [hstate]
  refine ⟨hq, ?_⟩
  obtain ⟨len1, self1, hreads, hl, -⟩ :=
    readLines_queue (self.m_lines ++ [QString.null]) len _ (hookMarkers hook self.thread) hq
  refine ⟨len1, self1, ?_, hl⟩
  simpa [QString.isNull] using hreads

/-- A running engine with one pending line, the hook not being called: after `detach` two
reads give the line and then `nullptr`, and the queue is empty. -/
theorem detach_releases_reader_witness :
    mDebuggerState.DEBUGGER_RUNNING ≠ mDebuggerState.DEBUGGER_SHUTDOWN ∧
    ∃ len1 self1,
      readLines 2 0 (detach mDebuggerState.DEBUGGER_RUNNING none true false
          (enterLine (mDebuggerState.other 0) (QString.str (text "step"))
            (DebuggerConsoleController.create 0 none)))
        = some ([some [115, 116, 101, 112], none], len1, self1) ∧
      self1.m_lines = [] :=
  ⟨by decide, (detach_releases_reader mDebuggerState.DEBUGGER_RUNNING none true false 0
    (enterLine (mDebuggerState.other 0) (QString.str (text "step"))
      (DebuggerConsoleController.create 0 none)) (by decide)).2⟩

/-- Claim C2, counterexample: on a fresh controller owned by thread 0, with the engine running
and the detach sequence calling the hook on thread 0, `detach` leaves two termination markers
in the queue, not one. -/
theorem detach_pushes_two_markers :
    (detach mDebuggerState.DEBUGGER_RUNNING (some (0, mDebuggerState.DEBUGGER_RUNNING)) true false
      (DebuggerConsoleController.create 0 none)).m_lines = [QString.null, QString.null] := by
  decide

/-- Claim C3, amended: when every history entry is a text without line feed and carriage
return that does not begin with the byte order mark character U+FEFF (empty entries allowed),
`historyLoad` run on the file written by `historySave` yields exactly the saved history,
whichever line ending the text mode writes and whether or not it folds CR LF on reading. -/
theorem history_round_trip (crlf fold : Bool) (self other : DebuggerConsoleController)
    (hline : ∀ e ∈ self.m_history,
      e.isNull = false ∧ Char.ofNat 10 ∉ e.chars ∧ Char.ofNat 13 ∉ e.chars ∧
        e.chars.head? ≠ some (Char.ofNat 0xFEFF))
    (hfile : other.log = (historySave true crlf self).log) :
    ∃ other1, historyLoad fold other = some other1 ∧ other1.m_history = self.m_history := by
  rw [historySave_log] at hfile
  have hloop := historyLoadLoop_saved fold crlf self.m_history (fun e he => (hline e he).2)
    ((self.m_history.flatMap
      (fun line => textWrite crlf line.toUtf8 ++ textWrite crlf [10])).length + 1) []
    (Nat.lt_succ_of_le (saved_length_ge crlf self.m_history))
  rw [List.nil_append, str_chars_of_not_null _ (fun e he => (hline e he).1)] at hloop
  simp only [historyLoad, hfile, hloop]
  exact ⟨_, rfl, rfl⟩

/-- The history `step`, `continue`, `break 0x100` saved with CR LF line ends and loaded by a
second controller. -/
theorem history_round_trip_witness :
    ∃ other1,
      historyLoad true (DebuggerConsoleController.create 1
          (historySave true true
            { DebuggerConsoleController.create 0 none with
              m_history := [QString.str (text "step"), QString.str (text "continue"),
                QString.str (text "break 0x100")] }).log)
        = some other1 ∧
      other1.m_history = [QString.str (text "step"), QString.str (text "continue"),
        QString.str (text "break 0x100")] :=
  history_round_trip true true
    { DebuggerConsoleController.create 0 none with
      m_history := [QString.str (text "step"), QString.str (text "continue"),
        QString.str (text "break 0x100")] }
    (DebuggerConsoleController.create 1 _) (by decide) rfl

/-- Claim C3, counterexample: the single entry U+FEFF followed by `step` holds neither a line
feed nor a carriage return, and is loaded back as `step`: the decoder has skipped the byte
order mark. -/
theorem history_round_trip_drops_bom :
    Char.ofNat 10 ∉ Char.ofNat 0xFEFF :: text "step" ∧
    Char.ofNat 13 ∉ Char.ofNat 0xFEFF :: text "step" ∧
    (historyLoad false (DebuggerConsoleController.create 1
        (historySave true false
          { DebuggerConsoleController.create 0 none with
            m_history := [QString.str (Char.ofNat 0xFEFF :: text "step")] }).log)).map
      (fun c => c.m_history) = some [QString.str (text "step")] := by
  decide

/-- Claim C4, amended: `enterLine` queues its argument as it is; the earlier entries are read
without waiting, and the call of `readLine` that dequeues the argument returns its UTF-8 bytes
and their number (zero for the empty string) when the argument is not the null string, and
`nullptr` when it is the null string.  End of input is thus reported exactly for a null
string in the queue, whoever queued it. -/
theorem readLine_end_of_input_iff_null (state : mDebuggerState) (line : QString) (len : Nat)
    (self : DebuggerConsoleController) :
    (enterLine state line self).m_lines = self.m_lines ++ [line] ∧
    ∃ results len1 self1,
      readLines self.m_lines.length len (enterLine state line self) = some (results, len1, self1) ∧
      ∃ self2, readLine len1 self1
        = ReadLine.returned (if line.isNull then none else some line.toUtf8)
            (if line.isNull then len1 else line.toUtf8.length) self2 := by
  refine ⟨enterLine_lines state line self, ?_⟩
  obtain ⟨len1, self1, hreads, hl, -⟩ :=
    readLines_queue self.m_lines len (enterLine state line self) [line] (enterLine_lines _ _ _)
  obtain ⟨self2, hread, -⟩ := readLine_cons len1 self1 line [] hl
  exact ⟨_, len1, self1, hreads, self2, hread⟩

/-- Claim C4, counterexample: the null string passed to `enterLine` on a fresh controller is
read back as `nullptr`, although no termination was pushed. -/
theorem enterLine_null_reads_as_end_of_input :
    (readLine 0 (enterLine (mDebuggerState.other 0) QString.null
      (DebuggerConsoleController.create 0 none))).result = some none := by
  decide

/-- Claim C5, amended: `historyLast` returns the last entry of the history, or the literal
`"i"` when the history is empty; `historyAppend` adds exactly one entry at the end and keeps
the earlier ones; and for a text `t` that does not begin with the byte order mark character
U+FEFF (as a C string, so without NUL) `historyAppend` followed by `historyLast` returns
`t`. -/
theorem historyLast_returns_latest (t : List Char) (line : QByteArray) (len : Nat)
    (self : DebuggerConsoleController) (hnul : Char.ofNat 0 ∉ t)
    (hbom : t.head? ≠ some (Char.ofNat 0xFEFF)) :
    ((historyLast len self).1
      = match self.m_history.getLast? with
        | none => some [0x69]
        | some entry => some entry.toUtf8) ∧
    (historyAppend line self).m_history = self.m_history ++ [QString.fromUtf8CStr line] ∧
    (historyAppend (QString.toUtf8 (QString.str t)) self).m_history
      = self.m_history ++ [QString.str t] ∧
    (historyLast len (historyAppend (QString.toUtf8 (QString.str t)) self)).1
      = some (QString.toUtf8 (QString.str t)) := by
  have h0 : 0 ∉ QString.toUtf8 (QString.str t) :=
    toUtf8_not_mem (QString.str t) 0 (by omega) hnul
  have hdec : QString.fromUtf8CStr (QString.toUtf8 (QString.str t)) = QString.str t := by
    rw [QString.fromUtf8CStr, takeWhile_nonzero _ h0, fromUtf8_toUtf8 t hbom]
  refine ⟨historyLast_result len self, rfl, ?_, ?_⟩
  · rw [historyAppend_history, hdec]
  · rw [historyLast_result, historyAppend_history, hdec]
    simp

/-- The entry `step` appended to an empty history and asked back. -/
theorem historyLast_returns_latest_witness :
    Char.ofNat 0 ∉ text "step" ∧ (text "step").head? ≠ some (Char.ofNat 0xFEFF) ∧
    (historyLast 0 (historyAppend [115, 116, 101, 112]
      (DebuggerConsoleController.create 0 none))).1 = some [115, 116, 101, 112] :=
  ⟨by decide, by decide, (historyLast_returns_latest (text "step") [] 0
    (DebuggerConsoleController.create 0 none) (by decide) (by decide)).2.2.2⟩

/-- Claim C5, counterexample: the text U+FEFF followed by `step`, seven bytes as a C string,
appended to an empty history is returned by `historyLast` as the four bytes of `step`. -/
theorem historyAppend_drops_bom :
    QString.toUtf8 (QString.str (Char.ofNat 0xFEFF :: text "step"))
      = [0xEF, 0xBB, 0xBF, 115, 116, 101, 112] ∧
    (historyLast 0 (historyAppend (QString.toUtf8 (QString.str (Char.ofNat 0xFEFF :: text "step")))
      (DebuggerConsoleController.create 0 none))).1 = some [115, 116, 101, 112] := by
  decide

/-- Claim C6, amended: re-attachment does not reset the queue.  After `detach` and
`attachInternal` the queue is what `detach` left: the old entries followed, unless the engine
was shut down, by the termination marker `detach` pushed, and by the marker of the `deinit`
hook if the detach sequence made it push one.  When the engine was not shut down, the reads
of the old entries return without waiting and the call of `readLine` that comes next, the
one reaching the marker, returns `nullptr`. -/
theorem reattach_keeps_queue (state : mDebuggerState) (hook : Option (Nat × mDebuggerState))
    (canOpen crlf : Bool) (len : Nat) (self : DebuggerConsoleController) :
    (attachInternal (detach state hook canOpen crlf self)).m_lines
      = (detach state hook canOpen crlf self).m_lines ∧
    (attachInternal (detach state hook canOpen crlf self)).m_lines
      = self.m_lines ++
          (if state = mDebuggerState.DEBUGGER_SHUTDOWN then [] else [QString.null]) ++
          hookMarkers hook self.thread ∧
    (state ≠ mDebuggerState.DEBUGGER_SHUTDOWN →
      ∃ len1 self1,
        readLines self.m_lines.length len (attachInternal (detach state hook canOpen crlf self))
          = some (self.m_lines.map (fun l => if l.isNull then none else some l.toUtf8),
              len1, self1) ∧
        (readLine len1 self1).result = some none) := by
  refine ⟨attachInternal_lines _, ?_, ?_⟩
  · rw [attachInternal_lines, detach_lines]
  · intro hstate
    have hq : (attachInternal (detach state hook canOpen crlf self)).m_lines
        = self.m_lines ++ (QString.null :: hookMarkers hook self.thread) := by
      rw [attachInternal_lines, detach_lines]; simp [hstate]
    obtain ⟨len1, self1, hreads, hl, -⟩ := readLines_queue self.m_lines len _ _ hq
    obtain ⟨self2, hread, -⟩ := readLine_cons len1 self1 QString.null _ hl
    refine ⟨len1, self1, hreads, ?_⟩
    rw [hread]
    rfl

/-- A pending line, `detach` with the engine running, then `attachInternal`: the first read
gives the line and the second one returns `nullptr`. -/
theorem reattach_keeps_queue_witness :
    mDebuggerState.DEBUGGER_RUNNING ≠ mDebuggerState.DEBUGGER_SHUTDOWN ∧
    ∃ len1 self1,
      readLines 1 0 (attachInternal (detach mDebuggerState.DEBUGGER_RUNNING none true false
          (enterLine (mDebuggerState.other 0) (QString.str (text "step"))
            (DebuggerConsoleController.create 0 none))))
        = some ([some [115, 116, 101, 112]], len1, self1) ∧
      (readLine len1 self1).result = some none :=
  ⟨by decide, (reattach_keeps_queue mDebuggerState.DEBUGGER_RUNNING none true false 0
    (enterLine (mDebuggerState.other 0) (QString.str (text "step"))
      (DebuggerConsoleController.create 0 none))).2.2 (by decide)⟩

/-- Claim C6, counterexample: `detach` with no read pending and then `attachInternal` on a
fresh controller leave the marker in the queue, and the first `readLine` returns `nullptr`. -/
theorem reattach_still_holds_marker :
    (attachInternal (detach mDebuggerState.DEBUGGER_RUNNING none true false
      (DebuggerConsoleController.create 0 none))).m_lines = [QString.null] ∧
    (readLine 0 (attachInternal (detach mDebuggerState.DEBUGGER_RUNNING none true false
      (DebuggerConsoleController.create 0 none)))).result = some none := by
  decide

/-- Claim C7, amended: `enterLine` appends the line in every engine state, and it calls
`mDebuggerEnter` exactly when the engine state is `DEBUGGER_RUNNING`: once when running, not
at all in any other state. -/
theorem enterLine_requests_entry_iff_running (state : mDebuggerState) (line : QString)
    (self : DebuggerConsoleController) :
    (enterLine state line self).m_lines = self.m_lines ++ [line] ∧
    enterRequests (enterLine state line self).trace
      = enterRequests self.trace
          + (if state = mDebuggerState.DEBUGGER_RUNNING then 1 else 0) := by
  refine ⟨enterLine_lines state line self, ?_⟩
  simp only [enterLine, interrupterAcquire, mutexLock, linesAppend, mDebuggerEnter, wakeOne, emit,
    mutexUnlock, interrupterRelease, enterRequests]
  by_cases hs : state = mDebuggerState.DEBUGGER_RUNNING <;> simp [hs, List.count_append]

/-- Claim C7, counterexample: with the engine running the request is made, and with the
engine in another state that is not shutdown no request is made. -/
theorem enterLine_request_made_when_running :
    enterRequests (enterLine mDebuggerState.DEBUGGER_RUNNING (QString.str (text "step"))
      (DebuggerConsoleController.create 0 none)).trace = 1 ∧
    enterRequests (enterLine (mDebuggerState.other 0) (QString.str (text "step"))
      (DebuggerConsoleController.create 0 none)).trace = 0 := by
  decide

/-- Claim C8, amended: `deinit` pushes a termination marker exactly when it runs on the thread
that owns the controller and the engine is not shut down; on any other thread, or with the
engine shut down, it leaves the queue unchanged. -/
theorem deinit_pushes_iff_owner_thread (current : Nat) (state : mDebuggerState)
    (self : DebuggerConsoleController) :
    (deinit current state self).m_lines
      = if current = self.thread ∧ state ≠ mDebuggerState.DEBUGGER_SHUTDOWN
        then self.m_lines ++ [QString.null] else self.m_lines := by
  unfold deinit
  split_ifs <;> rfl

/-- Claim C8, counterexample: called from thread 1 on a controller owned by thread 0, with the
engine running, `deinit` pushes nothing; called from thread 0 it pushes the marker. -/
theorem deinit_other_thread_pushes_nothing :
    (deinit 1 mDebuggerState.DEBUGGER_RUNNING (DebuggerConsoleController.create 0 none)).m_lines
      = [] ∧
    (deinit 0 mDebuggerState.DEBUGGER_RUNNING (DebuggerConsoleController.create 0 none)).m_lines
      = [QString.null] := by
  decide

/-- Claim C9: `deinit`, called on the owning thread with the engine running, appends to the
queue without holding the mutex, so its trace breaks the lock discipline that `enterLine`,
`detach` and `readLine` keep. -/
theorem deinit_appends_without_mutex :
    (deinit 0 mDebuggerState.DEBUGGER_RUNNING (DebuggerConsoleController.create 0 none)).trace
      = [Event.linesAppend false, Event.wakeOne] ∧
    lockDiscipline
      (deinit 0 mDebuggerState.DEBUGGER_RUNNING (DebuggerConsoleController.create 0 none)).trace
      = false := by
  decide

/-- Claim C10: on an empty history `historyLast` returns the one byte literal `"i"` and
leaves `*len` at the value it had on entry, whatever that was. -/
theorem historyLast_empty_leaves_len (len thread : Nat) (log : Option QByteArray) :
    (historyLast len (DebuggerConsoleController.create thread log)).1 = some [0x69] ∧
    (historyLast len (DebuggerConsoleController.create thread log)).2.1 = len := by
  exact ⟨rfl, rfl⟩

end QGBA
